import Mathlib

/-
Verification development for the VoiceBridge AAC speech-asset pipeline and
live audio scheduler.  The definitions below are a shallow embedding of the
TypeScript source: text is modelled as a list of characters (the ASCII
fragment of JS case mapping), the speech cache as an insertion-ordered
association list, the synthesis client as a state-passing function over an
explicit event trace (network calls and backoff waits), and the live
scheduler as a small state machine over rational time.
-/

/-- Text is modelled as a list of characters (a JS string). -/
abbrev Str := List Char

/-- JS `String.prototype.toUpperCase` on the ASCII fragment: per-character
upper-casing. -/
def jsToUpperCase (s : Str) : Str := s.map Char.toUpper

/-- JS `String.prototype.toLowerCase` on the ASCII fragment: per-character
lower-casing. -/
def jsToLowerCase (s : Str) : Str := s.map Char.toLower

/-- The regex test `/[A-Z]/.test(text)`: does the string contain an ASCII
upper-case letter? -/
def hasUpperAZ (s : Str) : Bool := s.any fun c => decide ('A' ≤ c ∧ c ≤ 'Z')

/-- Text normalization from `generateAudio` (src/types.ts lines 99-102):
`if (text && text.length > 1 && text === text.toUpperCase() && /[A-Z]/.test(text))
   textToSpeak = text.charAt(0).toUpperCase() + text.slice(1).toLowerCase();`
The truthiness test `text &&` is subsumed by `text.length > 1`. -/
def normalizeText (text : Str) : Str :=
  if 1 < text.length ∧ text = jsToUpperCase text ∧ hasUpperAZ text then
    match text with
    | [] => []
    | c :: rest => Char.toUpper c :: rest.map Char.toLower
  else text

/-- Sentence case as the specification words it: first character upper-cased,
remainder lower-cased.  Used to state the normalization claim. -/
def specSentenceCase (s : Str) : Str :=
  match s with
  | [] => []
  | c :: rest => Char.toUpper c :: rest.map Char.toLower

/-- The condition of the normalization rule as the specification words it:
longer than one character, contains at least one alphabetic character, and
equals its own upper-cased form. -/
def specNormalizeCondition (s : Str) : Prop :=
  1 < s.length ∧ (∃ c ∈ s, c.isAlpha) ∧ s = jsToUpperCase s

instance (s : Str) : Decidable (specNormalizeCondition s) := by
  unfold specNormalizeCondition; infer_instance

/-- The regex test `/[.?!]/` guarding the punctuation-stripped fallback in
`generateAudio` (src/types.ts line 171). -/
def punctTrigger (s : Str) : Bool := s.any fun c => c == '.' || c == '?' || c == '!'

/-- The replacement `/[.?!,]/g → ""` used to build the fallback text
(src/types.ts line 174). -/
def stripPunct (s : Str) : Str :=
  s.filter fun c => !(c == '.' || c == '?' || c == '!' || c == ',')

/-- Byte pairs of an `Int16Array` view of a byte buffer, little endian; a
trailing odd byte is dropped, and each 16-bit pattern is read as a signed
value in `[-32768, 32767]`. -/
def bytesToInt16 : List Nat → List Int
  | b0 :: b1 :: rest =>
      (let u := (b0 % 256) + 256 * (b1 % 256);
       if u % 65536 < 32768 then (u % 65536 : Int) else (u % 65536 : Int) - 65536)
        :: bytesToInt16 rest
  | _ => []

/-- The base64 alphabet used by `btoa`/`atob`. -/
def base64Alphabet : Str :=
  "ABCDEFGHIJKLMNOPQRSTUVWXYZabcdefghijklmnopqrstuvwxyz0123456789+/".data

/-- Character of one 6-bit group. -/
def b64char (n : Nat) : Char := base64Alphabet.getD (n % 64) 'A'

/-- Value of one base64 character (0 for characters outside the alphabet). -/
def b64value (c : Char) : Nat :=
  match base64Alphabet.indexOf? c with
  | some i => i
  | none => 0

/-- JS `btoa` over a byte list: standard base64 with `=` padding.  Models the
`encode` helper of src/types.ts (bytes → binary string → base64). -/
def encode : List Nat → Str
  | [] => []
  | [b0] =>
      let v := (b0 % 256) * 65536
      [b64char (v / 262144), b64char (v / 4096 % 64), '=', '=']
  | [b0, b1] =>
      let v := (b0 % 256) * 65536 + (b1 % 256) * 256
      [b64char (v / 262144), b64char (v / 4096 % 64), b64char (v / 64 % 64), '=']
  | b0 :: b1 :: b2 :: rest =>
      let v := (b0 % 256) * 65536 + (b1 % 256) * 256 + (b2 % 256)
      b64char (v / 262144) :: b64char (v / 4096 % 64) :: b64char (v / 64 % 64)
        :: b64char (v % 64) :: encode rest

/-- JS `atob` over a base64 string: models the `decode` helper of
src/types.ts (base64 → binary string → bytes).  Malformed tails are dropped
(the source would throw there; no claim depends on that path). -/
def decode : Str → List Nat
  | c1 :: c2 :: c3 :: c4 :: rest =>
      let v := b64value c1 * 262144 + b64value c2 * 4096 + b64value c3 * 64 + b64value c4
      if c4 = '=' then
        if c3 = '=' then [v / 65536]
        else [v / 65536, v / 256 % 256]
      else (v / 65536) :: (v / 256 % 256) :: (v % 256) :: decode rest
  | _ => []

/-- A decoded audio asset: per-channel sample lists plus format metadata
(the `AudioBuffer` produced by `decodeAudioData` in src/types.ts). -/
structure AudioBuffer where
  numberOfChannels : Nat
  sampleRate : Nat
  channels : List (List ℚ)
deriving DecidableEq

/-- The `decodeAudioData` helper of src/types.ts: view the bytes as 16-bit
signed little-endian samples, de-interleave into `numChannels` channels and
scale by `1 / 32768`. -/
def decodeAudioData (data : List Nat) (sampleRate numChannels : Nat) : AudioBuffer :=
  let dataInt16 := bytesToInt16 data
  let frameCount := dataInt16.length / numChannels
  { numberOfChannels := numChannels
    sampleRate := sampleRate
    channels :=
      (List.range numChannels).map fun ch =>
        (List.range frameCount).map fun i =>
          ((dataInt16.getD (i * numChannels + ch) 0 : ℚ) / 32768) }

/-- Truncation toward zero, as JS `ToIntegerOrInfinity` does when a float is
stored into an `Int16Array`. -/
def jsTrunc (q : ℚ) : Int := if 0 ≤ q then ⌊q⌋ else ⌈q⌉

/-- Conversion of an integer to a signed 16-bit value, as an `Int16Array`
store does: reduce modulo `2^16`, then reinterpret the pattern as signed. -/
def jsToInt16 (n : Int) : Int :=
  let m := n % 65536
  if m < 32768 then m else m - 65536

/-- One sample of the outbound PCM encoder (src/types.ts line 400):
`int16[i] = Math.max(-1, Math.min(1, data[i])) * 32768`. -/
def pcmSample (x : ℚ) : Int := jsToInt16 (jsTrunc (max (-1) (min 1 x) * 32768))

/-- Little-endian byte serialization of an `Int16Array`'s buffer. -/
def int16ToBytes (l : List Int) : List Nat :=
  l.flatMap fun v => [(v % 65536).toNat % 256, (v % 65536).toNat / 256]

/-- The `{ data, mimeType }` object returned by `createPcmBlob`. -/
structure PcmBlob where
  data : Str
  mimeType : Str
deriving DecidableEq

/-- The `createPcmBlob` helper of src/types.ts (lines 396-406): clamp each
sample to `[-1, 1]`, scale by 32768, store as 16-bit integers, and base64
encode the little-endian bytes. -/
def createPcmBlob (samples : List ℚ) : PcmBlob :=
  { data := encode (int16ToBytes (samples.map pcmSample))
    mimeType := "audio/pcm;rate=16000".data }

/-- One entry of the synthesis event trace: a network call carrying the
request text, or a backoff/batch delay in milliseconds. -/
inductive Ev where
  | call (text : Str)
  | wait (ms : Nat)
deriving DecidableEq

/-- Number of network calls in a trace. -/
def countCalls (es : List Ev) : Nat :=
  (es.filter fun e => match e with | .call _ => true | .wait _ => false).length

/-- The session state threaded through the synthesis client: the
`audioCache` map (insertion-ordered, keyed by `"voice:text"`) and the event
trace accumulated so far. -/
structure TTSState where
  cache : List (Str × AudioBuffer)
  events : List Ev
deriving DecidableEq

/-- JS `Map.get`. -/
def cacheGet : List (Str × AudioBuffer) → Str → Option AudioBuffer
  | [], _ => none
  | (k', v) :: rest, k => if k' = k then some v else cacheGet rest k

/-- JS `Map.set`: overwrite in place if the key exists, else append. -/
def cacheSet : List (Str × AudioBuffer) → Str → AudioBuffer → List (Str × AudioBuffer)
  | [], k, v => [(k, v)]
  | (k', v') :: rest, k, v =>
      if k' = k then (k, v) :: rest else (k', v') :: cacheSet rest k v

/-- The cache key `` `${voiceName}:${textToSpeak}` ``. -/
def cacheKeyOf (voiceName textToSpeak : Str) : Str := voiceName ++ ':' :: textToSpeak

/-- Append an event to the trace. -/
def pushEv (s : TTSState) (e : Ev) : TTSState := { s with events := s.events ++ [e] }

/-- A synthesis error value (the thrown JS error, abstracted to a string). -/
abbrev SynthErr := Str

/-- The remote TTS service: given the request text and the index of this
network call in the whole trace, either the base64 audio payload of the
response or the error thrown by that attempt (a thrown request error or the
`No audio data returned` error are not distinguished by the client). -/
abbrev Backend := Str → Nat → Except SynthErr Str

/-- Decoding of a successful response payload (src/types.ts lines 147-152):
`decodeAudioData(decode(base64Audio), ctx, 24000, 1)`. -/
def decodePayload (base64Audio : Str) : AudioBuffer :=
  decodeAudioData (decode base64Audio) 24000 1

/-- The retry loop of `generateAudio` (src/types.ts lines 115-168), with
`fuel` the number of attempts still allowed (`MAX_RETRIES - attempt`).
On success the decoded buffer is cached under `key` and returned; on failure
the loop waits `200 * (attempt + 1)` ms unless this was the final attempt,
in which case the last error falls out of the loop. -/
def runAttempts (B : Backend) (text key : Str) :
    Nat → Nat → SynthErr → TTSState → Except SynthErr AudioBuffer × TTSState
  | _, 0, lastError, s => (.error lastError, s)
  | attempt, fuel + 1, _, s =>
      let n := countCalls s.events
      let s1 := pushEv s (.call text)
      match B text n with
      | .ok base64Audio =>
          let audioBuffer := decodePayload base64Audio
          (.ok audioBuffer, { s1 with cache := cacheSet s1.cache key audioBuffer })
      | .error e =>
          if fuel = 0 then (.error e, s1)
          else runAttempts B text key (attempt + 1) fuel e (pushEv s1 (.wait (200 * (attempt + 1))))

/-- Placeholder for the `lastError` variable before any attempt ran; the
retry loop is always entered with positive fuel, so it is never returned. -/
def noAttemptErr : SynthErr := "no attempt".data

/-- Placeholder error for exhausted recursion fuel; `generateAudioF_fuel`
below shows fuel 2 already makes it unreachable. -/
def fuelErr : SynthErr := "fuel".data

/-- The `generateAudio` function of src/types.ts (lines 94-183), with an
explicit recursion-depth fuel for the punctuation-stripped fallback call
(line 175).  Normalize, consult the cache, run the retry loop, and on total
failure retry once with `.?!,` stripped when the normalized text matches
`/[.?!]/`; a fallback failure is swallowed and the loop's last error is
thrown. -/
def generateAudioF (B : Backend) : Nat → Str → Str → TTSState → Except SynthErr AudioBuffer × TTSState
  | 0, _, _, s => (.error fuelErr, s)
  | depth + 1, text, voiceName, s =>
      let textToSpeak := normalizeText text
      let cacheKey := cacheKeyOf voiceName textToSpeak
      match cacheGet s.cache cacheKey with
      | some buf => (.ok buf, s)
      | none =>
          match runAttempts B textToSpeak cacheKey 0 3 noAttemptErr s with
          | (.ok buf, s1) => (.ok buf, s1)
          | (.error lastError, s1) =>
              if punctTrigger textToSpeak then
                match generateAudioF B depth (stripPunct textToSpeak) voiceName s1 with
                | (.ok buf, s2) => (.ok buf, s2)
                | (.error _, s2) => (.error lastError, s2)
              else (.error lastError, s1)

/-- `generateAudio` at its natural recursion budget: the fallback call runs
at depth 1 and, as proved below, never recurses further. -/
def generateAudio (B : Backend) (text voiceName : Str) (s : TTSState) :
    Except SynthErr AudioBuffer × TTSState :=
  generateAudioF B 2 text voiceName s

/-- A vocabulary tile (the `TileData` interface of src/types.ts). -/
structure TileData where
  id : Str
  label : Str
  emoji : Str
  color : Str
  category : Str
  textToSpeak : Option Str
  isNavigation : Option Bool
  imageUrl : Option Str
deriving DecidableEq

/-- A vocabulary: category name to ordered tile list (`Object.values`
iterates in insertion order). -/
abbrev Vocabulary := List (Str × List TileData)

/-- The spoken string of a tile: `tile.textToSpeak || tile.label`; JS `||`
falls back on the empty string as well. -/
def speakOf (t : TileData) : Str :=
  match t.textToSpeak with
  | some s => if s = [] then t.label else s
  | none => t.label

/-- JS `Set.add`: append if not already present (insertion order kept). -/
def addUnique (l : List Str) (s : Str) : List Str := if s ∈ l then l else l ++ [s]

/-- The flattening step of `preloadAudioAssets` (src/types.ts lines 226-234):
walk every category and tile, skip tiles whose id starts with `folder_`, and
collect the spoken strings into an insertion-ordered set. -/
def collectTexts (vocabulary : Vocabulary) : List Str :=
  vocabulary.foldl
    (fun acc p =>
      p.2.foldl
        (fun a t => if ("folder_".data).isPrefixOf t.id then a else addUnique a (speakOf t))
        acc)
    []

/-- The flattening the claim describes: exclude tiles whose identifier marks
them as a folder or navigation tile, and speak `textToSpeak` when present,
else `label`.  Stated from the claim's words, to compare with
`collectTexts`. -/
def collectTextsClaim (vocabulary : Vocabulary) : List Str :=
  vocabulary.foldl
    (fun acc p =>
      p.2.foldl
        (fun a t =>
          if ("folder_".data).isPrefixOf t.id ∨ ("back_".data).isPrefixOf t.id then a
          else addUnique a (match t.textToSpeak with | some s => s | none => t.label))
        acc)
    []

/-- Is the normalized cache key of `t` for this voice already cached?  The
filter at src/types.ts lines 241-253 re-applies the normalization rule
before probing the cache. -/
def isCachedForVoice (cache : List (Str × AudioBuffer)) (voiceName t : Str) : Bool :=
  (cacheGet cache (cacheKeyOf voiceName (normalizeText t))).isSome

/-- Process the items of one batch: each item calls `generateAudio`, and
`finally` increments `completed` and reports progress whether the call
succeeded or failed.  Returns the emitted reports, the final counter, the
final state and the processed texts.  (`Promise.all` of the source is
serialized here: the cooperative scheduling model of the specification.) -/
def processItems (B : Backend) (voiceName : Str) (total : Nat) :
    List Str → Nat → TTSState → List (Nat × Nat) × Nat × TTSState × List Str
  | [], completed, s => ([], completed, s, [])
  | t :: rest, completed, s =>
      let r := generateAudio B t voiceName s
      let c1 := completed + 1
      let rec' := processItems B voiceName total rest c1 r.2
      ((c1, total) :: rec'.1, rec'.2.1, rec'.2.2.1, t :: rec'.2.2.2)

/-- The batch loop of `preloadAudioAssets` (lines 263-279): process the
queue in slices, with the 20 ms breather delay after each batch. -/
def processBatches (B : Backend) (voiceName : Str) (total : Nat) :
    List (List Str) → Nat → TTSState → List (Nat × Nat) × Nat × TTSState × List Str
  | [], completed, s => ([], completed, s, [])
  | b :: bs, completed, s =>
      let r := processItems B voiceName total b completed s
      let r' := processBatches B voiceName total bs r.2.1 (pushEv r.2.2.1 (.wait 20))
      (r.1 ++ r'.1, r'.2.1, r'.2.2.1, r.2.2.2 ++ r'.2.2.2)

/-- Slices `queue.slice(i, i + BATCH_SIZE)` of the batch loop. -/
def chunksOf (k : Nat) (l : List Str) : List (List Str) :=
  if l = [] ∨ k = 0 then [] else l.take k :: chunksOf k (l.drop k)
termination_by l.length
decreasing_by
  rename_i h
  push_neg at h
  have h0 : 0 < l.length := List.length_pos.mpr h.1
  simp only [List.length_drop]
  omega

/-- The `preloadAudioAssets` function of src/types.ts (lines 220-280):
flatten the vocabulary, count the already-cached texts as completed, report
once, and process the rest in batches of 15.  Returns the list of progress
reports in emission order, the final state, and the texts passed to
`generateAudio`. -/
def preloadAudioAssets (B : Backend) (vocabulary : Vocabulary) (voiceName : Str)
    (s : TTSState) : List (Nat × Nat) × TTSState × List Str :=
  let textsToProcess := collectTexts vocabulary
  let total := textsToProcess.length
  let completed := (textsToProcess.filter fun t => isCachedForVoice s.cache voiceName t).length
  let queue := textsToProcess.filter fun t => !isCachedForVoice s.cache voiceName t
  if queue = [] then ([(completed, total)], s, [])
  else
    let r := processBatches B voiceName total (chunksOf 15 queue) completed s
    ((completed, total) :: r.1, r.2.2.1, r.2.2.2)

/-- State of the live session's inbound scheduler: the playback cursor
`nextStartTime`, the `activeSources` set (source ids in insertion order),
the log of sources force-stopped so far, and the `isSpeaking` flag. -/
structure LiveState where
  nextStartTime : ℚ
  activeSources : List Nat
  stoppedLog : List Nat
  isSpeaking : Bool
deriving DecidableEq

/-- The live session state right after opening. -/
def liveInit : LiveState := { nextStartTime := 0, activeSources := [], stoppedLog := [], isSpeaking := false }

/-- Handling of one inbound audio chunk (KeyboardView.tsx lines 316-341):
clamp the cursor to the current clock, start the source at the cursor,
advance the cursor by the buffer duration, and add the source to
`activeSources`.  Returns the new state and the scheduled start time. -/
def onAudioChunk (st : LiveState) (clockNow dur : ℚ) (sid : Nat) : LiveState × ℚ :=
  let startTime := max st.nextStartTime clockNow
  ({ st with
      nextStartTime := startTime + dur
      activeSources :=
        if sid ∈ st.activeSources then st.activeSources else st.activeSources ++ [sid]
      isSpeaking := true },
   startTime)

/-- Natural completion of one source (the `ended` listener, lines 333-336):
remove it from `activeSources` and clear `isSpeaking` when none remain. -/
def onEnded (st : LiveState) (sid : Nat) : LiveState :=
  let remaining := st.activeSources.erase sid
  { st with
      activeSources := remaining
      isSpeaking := if remaining = [] then false else st.isSpeaking }

/-- Handling of an `{interrupted: true}` message (lines 344-349): stop every
active source, clear the set, and reset the cursor to 0. -/
def onInterrupted (st : LiveState) : LiveState :=
  { nextStartTime := 0
    activeSources := []
    stoppedLog := st.stoppedLog ++ st.activeSources
    isSpeaking := false }

/-- A fixed error value for concrete backends. -/
def boomErr : SynthErr := "boom".data

/-- A backend whose every attempt fails. -/
def failBackend : Backend := fun _ _ => .error boomErr

/-- A backend whose every attempt succeeds with an empty payload. -/
def okBackend : Backend := fun _ _ => .ok []

/-- A backend that accepts exactly the text `Hi` and rejects every other
request (used to exercise the punctuation-stripped fallback). -/
def hiBackend : Backend := fun t _ => if t = "Hi".data then .ok [] else .error boomErr

/-- The buffer decoded from an empty payload. -/
def emptyBuffer : AudioBuffer := decodePayload []

/-- A navigation tile (a Back button), as found in the vocabulary data. -/
def navTile : TileData :=
  { id := "back_general".data, label := "Back".data, emoji := "⬅".data
    color := "bg-gray".data, category := "General".data
    textToSpeak := none, isNavigation := some true, imageUrl := none }

/-- A speech tile whose `textToSpeak` is the empty string. -/
def emptyTtsTile : TileData :=
  { id := "w1".data, label := "Water".data, emoji := "💧".data
    color := "bg-blue".data, category := "Needs".data
    textToSpeak := some [], isNavigation := none, imageUrl := none }

/-- A one-category vocabulary containing a navigation tile and an
empty-`textToSpeak` tile. -/
def cxVocabulary : Vocabulary := [("General".data, [navTile, emptyTtsTile])]

/-- A live session mid-playback: cursor at 5 s with two active sources. -/
def liveBusy : LiveState :=
  { nextStartTime := 5, activeSources := [1, 2], stoppedLog := [], isSpeaking := true }

/-- Number of unique vocabulary texts whose normalized key is already
cached for this voice (the `completed` counter right before the first
progress report). -/
def preloadCached (vocabulary : Vocabulary) (voiceName : Str)
    (cache : List (Str × AudioBuffer)) : Nat :=
  ((collectTexts vocabulary).filter fun t => isCachedForVoice cache voiceName t).length

/-- The pending queue of `preloadAudioAssets`: unique texts not yet cached. -/
def preloadQueue (vocabulary : Vocabulary) (voiceName : Str)
    (cache : List (Str × AudioBuffer)) : List Str :=
  (collectTexts vocabulary).filter fun t => !isCachedForVoice cache voiceName t

/-- Total number of unique speakable texts of the vocabulary. -/
def preloadTotal (vocabulary : Vocabulary) : Nat := (collectTexts vocabulary).length

/-- The event trace of one full three-attempt retry round on text `t`:
a call, a 200 ms wait, a call, a 400 ms wait, and a final call. -/
def retryEvents (t : Str) : List Ev :=
  [.call t, .wait 200, .call t, .wait 400, .call t]

theorem char_toNat_ofNat (n : Nat) (h : n < 55296) : (Char.ofNat n).toNat = n := by
  have hv : n.isValidChar := Or.inl h
  simp [Char.ofNat, hv, Char.ofNatAux, Char.toNat, UInt32.toNat]

theorem toUpper_eq_or (c : Char) :
    Char.toUpper c = c ∨ (65 ≤ (Char.toUpper c).toNat ∧ (Char.toUpper c).toNat ≤ 90) := by
  unfold Char.toUpper
  by_cases h : c.toNat ≥ 97 ∧ c.toNat ≤ 122
  · right
    rw [if_pos h]
    have := char_toNat_ofNat (c.toNat - 32) (by omega)
    omega
  · left
    rw [if_neg h]

theorem toLower_eq_or (c : Char) :
    Char.toLower c = c ∨ (97 ≤ (Char.toLower c).toNat ∧ (Char.toLower c).toNat ≤ 122) := by
  unfold Char.toLower
  by_cases h : c.toNat ≥ 65 ∧ c.toNat ≤ 90
  · right
    rw [if_pos h]
    have := char_toNat_ofNat (c.toNat + 32) (by omega)
    omega
  · left
    rw [if_neg h]

theorem toUpper_ne_of_lower (c : Char) (h : 97 ≤ c.toNat ∧ c.toNat ≤ 122) :
    Char.toUpper c ≠ c := by
  unfold Char.toUpper
  rw [if_pos h]
  intro he
  have h2 := char_toNat_ofNat (c.toNat - 32) (by omega)
  rw [he] at h2
  omega

theorem eq_map_self_mem {f : Char → Char} :
    ∀ (l : List Char), l = l.map f → ∀ c ∈ l, f c = c := by
  intro l
  induction l with
  | nil => intro _ c hc; cases hc
  | cons a t ih =>
      intro h c hc
      rw [List.map_cons] at h
      injection h with h1 h2
      rcases List.mem_cons.mp hc with rfl | hmem
      · exact h1.symm
      · exact ih h2 c hmem

theorem hasUpperAZ_iff_alpha (s : Str) (hup : s = jsToUpperCase s) :
    hasUpperAZ s = true ↔ ∃ c ∈ s, c.isAlpha = true := by
  constructor
  · intro h
    obtain ⟨c, hc, hAZ⟩ := List.any_eq_true.mp h
    obtain ⟨h1, h2⟩ := of_decide_eq_true hAZ
    refine ⟨c, hc, ?_⟩
    simp only [Char.isAlpha, Char.isUpper, Bool.or_eq_true, Bool.and_eq_true,
      decide_eq_true_eq]
    exact Or.inl ⟨h1, h2⟩
  · rintro ⟨c, hc, hAlpha⟩
    have hfix := eq_map_self_mem s hup c hc
    simp only [Char.isAlpha, Char.isUpper, Char.isLower, Bool.or_eq_true,
      Bool.and_eq_true, decide_eq_true_eq] at hAlpha
    rcases hAlpha with hU | hL
    · refine List.any_eq_true.mpr ⟨c, hc, decide_eq_true ?_⟩
      exact ⟨hU.1, hU.2⟩
    · exact absurd hfix (toUpper_ne_of_lower c ⟨hL.1, hL.2⟩)

/-- Claim C4: text normalization returns the sentence-cased string exactly
when the input is longer than one character, contains an alphabetic
character, and equals its own upper-cased form; every other string is
returned unchanged. -/
theorem claim_c4_normalization (s : Str) :
    normalizeText s = if specNormalizeCondition s then specSentenceCase s else s := by
  by_cases h : 1 < s.length ∧ s = jsToUpperCase s ∧ hasUpperAZ s = true
  · have hcond : specNormalizeCondition s :=
      ⟨h.1, (hasUpperAZ_iff_alpha s h.2.1).mp h.2.2, h.2.1⟩
    unfold normalizeText
    rw [if_pos ⟨h.1, h.2.1, h.2.2⟩, if_pos hcond]
    cases s <;> rfl
  · have hcond : ¬ specNormalizeCondition s := by
      intro hc
      exact h ⟨hc.1, hc.2.2, (hasUpperAZ_iff_alpha s hc.2.2).mpr hc.2.1⟩
    unfold normalizeText
    rw [if_neg, if_neg hcond]
    intro hc
    exact h ⟨hc.1, hc.2.1, hc.2.2⟩

theorem toUpper_notin_punct (c : Char) (h : c ≠ '.' ∧ c ≠ '?' ∧ c ≠ '!') :
    Char.toUpper c ≠ '.' ∧ Char.toUpper c ≠ '?' ∧ Char.toUpper c ≠ '!' := by
  rcases toUpper_eq_or c with he | hb
  · rw [he]; exact h
  · refine ⟨?_, ?_, ?_⟩ <;> intro he2 <;> rw [he2] at hb <;> revert hb <;> decide

theorem toLower_notin_punct (c : Char) (h : c ≠ '.' ∧ c ≠ '?' ∧ c ≠ '!') :
    Char.toLower c ≠ '.' ∧ Char.toLower c ≠ '?' ∧ Char.toLower c ≠ '!' := by
  rcases toLower_eq_or c with he | hb
  · rw [he]; exact h
  · refine ⟨?_, ?_, ?_⟩ <;> intro he2 <;> rw [he2] at hb <;> revert hb <;> decide

theorem punctTrigger_eq_false_iff (s : Str) :
    punctTrigger s = false ↔ ∀ c ∈ s, c ≠ '.' ∧ c ≠ '?' ∧ c ≠ '!' := by
  simp only [punctTrigger, List.any_eq_false, Bool.or_eq_true, beq_iff_eq, not_or]
  constructor
  · intro h c hc
    exact ⟨(h c hc).1.1, (h c hc).1.2, (h c hc).2⟩
  · intro h c hc
    exact ⟨⟨(h c hc).1, (h c hc).2.1⟩, (h c hc).2.2⟩

theorem punctTrigger_normalizeText_false (t : Str) (h : punctTrigger t = false) :
    punctTrigger (normalizeText t) = false := by
  rw [punctTrigger_eq_false_iff] at h ⊢
  unfold normalizeText
  split
  · cases t with
    | nil => intro c hc; cases hc
    | cons a rest =>
        intro c hc
        rcases List.mem_cons.mp hc with rfl | hmem
        · exact toUpper_notin_punct a (h a (List.mem_cons_self a rest))
        · obtain ⟨d, hd, rfl⟩ := List.mem_map.mp hmem
          exact toLower_notin_punct d (h d (List.mem_cons_of_mem a hd))
  · exact h

theorem punctTrigger_stripPunct_false (s : Str) : punctTrigger (stripPunct s) = false := by
  rw [punctTrigger_eq_false_iff]
  intro c hc
  have h2 := (List.mem_filter.mp hc).2
  simp only [Bool.not_eq_eq_eq_not, Bool.not_true, Bool.or_eq_false_iff,
    beq_eq_false_iff_ne, ne_eq] at h2
  exact ⟨h2.1.1.1, h2.1.1.2, h2.1.2⟩

theorem punctTrigger_norm_strip (u : Str) :
    punctTrigger (normalizeText (stripPunct u)) = false :=
  punctTrigger_normalizeText_false _ (punctTrigger_stripPunct_false u)

theorem generateAudioF_punctfree (B : Backend) (t v : Str)
    (h : punctTrigger (normalizeText t) = false) (d : Nat) (s : TTSState) :
    generateAudioF B (d + 1) t v s = generateAudioF B 1 t v s := by
  cases hc : cacheGet s.cache (cacheKeyOf v (normalizeText t)) with
  | some buf => simp [generateAudioF, hc]
  | none =>
      cases hr : runAttempts B (normalizeText t) (cacheKeyOf v (normalizeText t)) 0 3 noAttemptErr s with
      | mk r s1 =>
          cases r with
          | ok buf => simp [generateAudioF, hc, hr]
          | error e => simp [generateAudioF, hc, hr, h]

theorem generateAudioF_fuel (B : Backend) (t v : Str) (d : Nat) (s : TTSState) :
    generateAudioF B (d + 2) t v s = generateAudio B t v s := by
  unfold generateAudio
  cases hc : cacheGet s.cache (cacheKeyOf v (normalizeText t)) with
  | some buf => simp [generateAudioF, hc]
  | none =>
      cases hr : runAttempts B (normalizeText t) (cacheKeyOf v (normalizeText t)) 0 3 noAttemptErr s with
      | mk r s1 =>
          cases r with
          | ok buf => simp [generateAudioF, hc, hr]
          | error e =>
              by_cases hp : punctTrigger (normalizeText t) = true
              · simp only [generateAudioF, hc, hr, hp, if_true]
                simp [punctTrigger_norm_strip]
              · simp [generateAudioF, hc, hr, hp]

/-- Claim C10: the outbound PCM encoder clamps each sample to `[-1, 1]`,
scales by 32768, and stores it as a 16-bit integer modulo `2^16`, so every
encoded sample lies in `[-32768, 32767]` and a sample of exactly 1.0 wraps
to `-32768`; the blob is the base64 encoding of the little-endian 16-bit
values with mime type `audio/pcm;rate=16000`. -/
theorem claim_c10_pcm_encoder (samples : List ℚ) :
    (createPcmBlob samples).mimeType = "audio/pcm;rate=16000".data ∧
    (createPcmBlob samples).data = encode (int16ToBytes (samples.map pcmSample)) ∧
    (∀ x : ℚ, -32768 ≤ pcmSample x ∧ pcmSample x ≤ 32767) ∧
    pcmSample 1 = -32768 := by
  refine ⟨rfl, rfl, ?_, ?_⟩
  · intro x
    unfold pcmSample jsToInt16
    have h0 : 0 ≤ jsTrunc (max (-1) (min 1 x) * 32768) % 65536 :=
      Int.emod_nonneg _ (by norm_num)
    have h1 : jsTrunc (max (-1) (min 1 x) * 32768) % 65536 < 65536 :=
      Int.emod_lt_of_pos _ (by norm_num)
    dsimp only
    split <;> omega
  · have hmin : min (1 : ℚ) 1 = 1 := by norm_num
    have hmax : max (-1 : ℚ) 1 = 1 := by norm_num
    unfold pcmSample jsTrunc
    rw [hmin, hmax, one_mul, if_pos (by norm_num : (0:ℚ) ≤ 32768)]
    norm_num [jsToInt16]

theorem cacheGet_cacheSet_self (c : List (Str × AudioBuffer)) (k : Str) (v : AudioBuffer) :
    cacheGet (cacheSet c k v) k = some v := by
  induction c with
  | nil => simp [cacheSet, cacheGet]
  | cons p rest ih =>
      by_cases h : p.1 = k
      · simp [cacheSet, cacheGet, h]
      · simp [cacheSet, cacheGet, h, ih]

theorem cacheGet_cacheSet_ne (c : List (Str × AudioBuffer)) (k k' : Str) (v : AudioBuffer)
    (h : k ≠ k') : cacheGet (cacheSet c k v) k' = cacheGet c k' := by
  induction c with
  | nil => simp [cacheSet, cacheGet, h]
  | cons p rest ih =>
      by_cases hp : p.1 = k
      · simp [cacheSet, cacheGet, hp, h]
      · simp [cacheSet, cacheGet, hp, ih]

theorem countCalls_append (a b : List Ev) :
    countCalls (a ++ b) = countCalls a + countCalls b := by
  simp [countCalls, List.filter_append]

theorem runAttempts_ok_cache (B : Backend) (text key : Str) :
    ∀ (fuel attempt : Nat) (e0 : SynthErr) (s : TTSState) (buf : AudioBuffer) (s' : TTSState),
      runAttempts B text key attempt fuel e0 s = (.ok buf, s') →
      cacheGet s'.cache key = some buf := by
  intro fuel
  induction fuel with
  | zero => intro attempt e0 s buf s' h; simp [runAttempts] at h
  | succ fuel ih =>
      intro attempt e0 s buf s' h
      rw [runAttempts] at h
      cases hB : B text (countCalls s.events) with
      | ok payload =>
          rw [hB] at h
          simp only at h
          obtain ⟨h1, h2⟩ := Prod.mk.injEq .. ▸ h
          injection h1 with h1
          subst h1
          rw [← h2]
          exact cacheGet_cacheSet_self _ _ _
      | error e =>
          rw [hB] at h
          simp only at h
          by_cases hf : fuel = 0
          · rw [if_pos hf] at h
            exact absurd (congrArg Prod.fst h) (by simp)
          · rw [if_neg hf] at h
            obtain ⟨fuel', rfl⟩ := Nat.exists_eq_succ_of_ne_zero hf
            exact ih _ _ _ _ _ h

theorem runAttempts_error_cache (B : Backend) (text key : Str) :
    ∀ (fuel attempt : Nat) (e0 : SynthErr) (s : TTSState) (e : SynthErr) (s' : TTSState),
      runAttempts B text key attempt fuel e0 s = (.error e, s') →
      s'.cache = s.cache := by
  intro fuel
  induction fuel with
  | zero =>
      intro attempt e0 s e s' h
      rw [runAttempts] at h
      obtain ⟨-, h2⟩ := Prod.mk.injEq .. ▸ h
      rw [← h2]
  | succ fuel ih =>
      intro attempt e0 s e s' h
      rw [runAttempts] at h
      cases hB : B text (countCalls s.events) with
      | ok payload =>
          rw [hB] at h
          simp only at h
          exact absurd (congrArg Prod.fst h) (by simp)
      | error e2 =>
          rw [hB] at h
          simp only at h
          by_cases hf : fuel = 0
          · rw [if_pos hf] at h
            obtain ⟨-, h2⟩ := Prod.mk.injEq .. ▸ h
            rw [← h2]
            rfl
          · rw [if_neg hf] at h
            obtain ⟨fuel', rfl⟩ := Nat.exists_eq_succ_of_ne_zero hf
            exact (ih _ _ _ _ _ h).trans rfl

theorem countCalls_call (t : Str) : countCalls [.call t] = 1 := rfl

theorem countCalls_wait (m : Nat) : countCalls [.wait m] = 0 := rfl

theorem runAttempts_allfail (B : Backend) (E : Str → Nat → SynthErr) (text key : Str)
    (hB : ∀ n, B text n = .error (E text n)) (s : TTSState) :
    runAttempts B text key 0 3 noAttemptErr s =
      (.error (E text (countCalls s.events + 2)),
       { s with events := s.events ++ [.call text, .wait 200, .call text, .wait 400, .call text] }) := by
  simp only [runAttempts, hB, pushEv, countCalls_append, countCalls_call, countCalls_wait,
    List.append_assoc, List.singleton_append, List.cons_append, List.nil_append]
  norm_num [countCalls, List.filter]


theorem take5_retryEvents (t : Str) (l : List Ev) :
    (retryEvents t ++ l).take 5 = retryEvents t := by
  simp [retryEvents]

theorem generateAudioF_one_allfail (B : Backend) (E : Str → Nat → SynthErr)
    (t voice : Str) (c : List (Str × AudioBuffer)) (es : List Ev)
    (hB : ∀ u n, B u n = .error (E u n))
    (hmiss : cacheGet c (cacheKeyOf voice (normalizeText t)) = none) :
    generateAudioF B 1 t voice ⟨c, es⟩ =
      (.error (E (normalizeText t) (countCalls es + 2)),
       ⟨c, es ++ retryEvents (normalizeText t)⟩) := by
  have hrun := runAttempts_allfail B E (normalizeText t)
    (cacheKeyOf voice (normalizeText t)) (fun n => hB _ n) ⟨c, es⟩
  rw [show (1 : Nat) = 0 + 1 from rfl, generateAudioF]
  dsimp only
  rw [hmiss, hrun]
  dsimp only
  by_cases hp : punctTrigger (normalizeText t) = true
  · rw [if_pos hp, generateAudioF]
    rfl
  · rw [if_neg hp]
    rfl

theorem generateAudio_allfail_nopunct (B : Backend) (E : Str → Nat → SynthErr)
    (c : List (Str × AudioBuffer)) (text voice : Str)
    (hB : ∀ u n, B u n = .error (E u n))
    (hmiss : cacheGet c (cacheKeyOf voice (normalizeText text)) = none)
    (hp : punctTrigger (normalizeText text) = false) :
    generateAudio B text voice ⟨c, []⟩ =
      (.error (E (normalizeText text) 2), ⟨c, retryEvents (normalizeText text)⟩) := by
  have hrun := runAttempts_allfail B E (normalizeText text)
    (cacheKeyOf voice (normalizeText text)) (fun n => hB _ n) ⟨c, []⟩
  rw [generateAudio, show (2 : Nat) = 1 + 1 from rfl, generateAudioF]
  dsimp only
  rw [hmiss, hrun]
  dsimp only
  rw [if_neg (by rw [hp]; exact Bool.false_ne_true)]
  rfl

theorem generateAudio_allfail_punct (B : Backend) (E : Str → Nat → SynthErr)
    (c : List (Str × AudioBuffer)) (text voice : Str)
    (hB : ∀ u n, B u n = .error (E u n))
    (hmiss : cacheGet c (cacheKeyOf voice (normalizeText text)) = none)
    (hmiss2 : cacheGet c
      (cacheKeyOf voice (normalizeText (stripPunct (normalizeText text)))) = none)
    (hp : punctTrigger (normalizeText text) = true) :
    generateAudio B text voice ⟨c, []⟩ =
      (.error (E (normalizeText text) 2),
       ⟨c, retryEvents (normalizeText text) ++
           retryEvents (normalizeText (stripPunct (normalizeText text)))⟩) := by
  have hrun := runAttempts_allfail B E (normalizeText text)
    (cacheKeyOf voice (normalizeText text)) (fun n => hB _ n) ⟨c, []⟩
  rw [generateAudio, show (2 : Nat) = 1 + 1 from rfl, generateAudioF]
  dsimp only
  rw [hmiss, hrun]
  dsimp only
  rw [if_pos hp]
  rw [List.nil_append]
  rw [generateAudioF_one_allfail B E (stripPunct (normalizeText text)) voice c _ hB hmiss2]
  rfl

theorem generateAudioF_one_cachehit (B : Backend) (t voice : Str)
    (c : List (Str × AudioBuffer)) (es : List Ev) (buf : AudioBuffer)
    (hhit : cacheGet c (cacheKeyOf voice (normalizeText t)) = some buf) :
    generateAudioF B 1 t voice ⟨c, es⟩ = (.ok buf, ⟨c, es⟩) := by
  rw [show (1 : Nat) = 0 + 1 from rfl, generateAudioF]
  dsimp only
  rw [hhit]

/-- Claim C3: against a backend failing every attempt, an uncached text
causes exactly 3 remote attempts, with a 200 ms wait after the first failed
attempt, a 400 ms wait after the second, and no wait after the third; the
client then either raises the error of the last attempt or falls through to
the punctuation-stripped fallback call. -/
theorem claim_c3_retry_bound (B : Backend) (E : Str → Nat → SynthErr)
    (c : List (Str × AudioBuffer)) (text voice : Str)
    (hB : ∀ t n, B t n = .error (E t n))
    (hmiss : cacheGet c (cacheKeyOf voice (normalizeText text)) = none) :
    (generateAudio B text voice ⟨c, []⟩).2.events.take 5 = retryEvents (normalizeText text) ∧
    countCalls (retryEvents (normalizeText text)) = 3 ∧
    (punctTrigger (normalizeText text) = false →
      (generateAudio B text voice ⟨c, []⟩).2.events = retryEvents (normalizeText text) ∧
      (generateAudio B text voice ⟨c, []⟩).1 = .error (E (normalizeText text) 2)) ∧
    (punctTrigger (normalizeText text) = true →
      generateAudio B text voice ⟨c, []⟩ =
        match generateAudioF B 1 (stripPunct (normalizeText text)) voice
            ⟨c, retryEvents (normalizeText text)⟩ with
        | (.ok buf, s2) => (.ok buf, s2)
        | (.error _, s2) => (.error (E (normalizeText text) 2), s2)) := by
  refine ⟨?_, rfl, ?_, ?_⟩
  · by_cases hp : punctTrigger (normalizeText text) = true
    · cases hg2 : cacheGet c
          (cacheKeyOf voice (normalizeText (stripPunct (normalizeText text)))) with
      | some buf2 =>
          have hout : generateAudio B text voice ⟨c, []⟩ =
              (.ok buf2, ⟨c, retryEvents (normalizeText text)⟩) := by
            have hrun := runAttempts_allfail B E (normalizeText text)
              (cacheKeyOf voice (normalizeText text)) (fun n => hB _ n) ⟨c, []⟩
            rw [generateAudio, show (2 : Nat) = 1 + 1 from rfl, generateAudioF]
            dsimp only
            rw [hmiss, hrun]
            dsimp only
            rw [if_pos hp, List.nil_append]
            rw [generateAudioF_one_cachehit B (stripPunct (normalizeText text)) voice c _ buf2 hg2]
            rfl
          rw [hout]
          simp [retryEvents]
      | none =>
          rw [generateAudio_allfail_punct B E c text voice hB hmiss hg2 hp]
          exact take5_retryEvents _ _
    · have hp' : punctTrigger (normalizeText text) = false := by
        cases h : punctTrigger (normalizeText text)
        · rfl
        · exact absurd h hp
      rw [generateAudio_allfail_nopunct B E c text voice hB hmiss hp']
      simp [retryEvents]
  · intro hp
    rw [generateAudio_allfail_nopunct B E c text voice hB hmiss hp]
    exact ⟨rfl, rfl⟩
  · intro hp
    cases hg2 : cacheGet c
        (cacheKeyOf voice (normalizeText (stripPunct (normalizeText text)))) with
    | some buf2 =>
        have hout : generateAudio B text voice ⟨c, []⟩ =
            (.ok buf2, ⟨c, retryEvents (normalizeText text)⟩) := by
          have hrun := runAttempts_allfail B E (normalizeText text)
            (cacheKeyOf voice (normalizeText text)) (fun n => hB _ n) ⟨c, []⟩
          rw [generateAudio, show (2 : Nat) = 1 + 1 from rfl, generateAudioF]
          dsimp only
          rw [hmiss, hrun]
          dsimp only
          rw [if_pos hp, List.nil_append]
          rw [generateAudioF_one_cachehit B (stripPunct (normalizeText text)) voice c _ buf2 hg2]
          rfl
        rw [hout, generateAudioF_one_cachehit B (stripPunct (normalizeText text)) voice c _ buf2 hg2]
    | none =>
        rw [generateAudio_allfail_punct B E c text voice hB hmiss hg2 hp]
        rw [generateAudioF_one_allfail B E (stripPunct (normalizeText text)) voice c _ hB hg2]

theorem countCalls_retryEvents (t : Str) : countCalls (retryEvents t) = 3 := rfl

theorem runAttempts_ok_state (B : Backend) (text key : Str) :
    ∀ (fuel attempt : Nat) (e0 : SynthErr) (s : TTSState) (buf : AudioBuffer) (s' : TTSState),
      runAttempts B text key attempt fuel e0 s = (.ok buf, s') →
      s'.cache = cacheSet s.cache key buf := by
  intro fuel
  induction fuel with
  | zero => intro attempt e0 s buf s' h; simp [runAttempts] at h
  | succ fuel ih =>
      intro attempt e0 s buf s' h
      rw [runAttempts] at h
      cases hB : B text (countCalls s.events) with
      | ok payload =>
          rw [hB] at h
          simp only at h
          obtain ⟨h1, h2⟩ := Prod.mk.injEq .. ▸ h
          injection h1 with h1
          rw [← h2, h1]
          rfl
      | error e =>
          rw [hB] at h
          simp only at h
          by_cases hf : fuel = 0
          · rw [if_pos hf] at h
            exact absurd (congrArg Prod.fst h) (by simp)
          · rw [if_neg hf] at h
            obtain ⟨fuel', rfl⟩ := Nat.exists_eq_succ_of_ne_zero hf
            exact (ih _ _ _ _ _ h).trans rfl

theorem generateAudioF_one_hit (B : Backend) (t voice : Str) (s : TTSState) (buf : AudioBuffer)
    (hhit : cacheGet s.cache (cacheKeyOf voice (normalizeText t)) = some buf) :
    generateAudioF B 1 t voice s = (.ok buf, s) := by
  rw [show (1 : Nat) = 0 + 1 from rfl, generateAudioF]
  rw [hhit]

theorem cacheKeyOf_inj (v a b : Str) (h : cacheKeyOf v a = cacheKeyOf v b) : a = b := by
  unfold cacheKeyOf at h
  have h2 := List.append_cancel_left h
  injection h2

theorem key_ne_strip (voice text : Str) (hp : punctTrigger (normalizeText text) = true) :
    cacheKeyOf voice (normalizeText text) ≠
      cacheKeyOf voice (normalizeText (stripPunct (normalizeText text))) := by
  intro he
  have heq := cacheKeyOf_inj voice _ _ he
  rw [heq] at hp
  rw [punctTrigger_norm_strip] at hp
  exact Bool.false_ne_true hp

/-- Claim C1 (amended): when synthesis succeeds directly (cache hit or one
of the three attempts), the asset is available in the cache under the
original normalized key; when success comes only through the
punctuation-stripped fallback, the asset is cached under the stripped
text's normalized key and the original key's entry is left exactly as it
was, so a later call with the original text is not a cache hit. -/
theorem claim_c1_amended (B : Backend) (text voice : Str) (s : TTSState) (buf : AudioBuffer)
    (h : (generateAudio B text voice s).1 = .ok buf) :
    cacheGet (generateAudio B text voice s).2.cache
      (cacheKeyOf voice (normalizeText text)) = some buf ∨
    (punctTrigger (normalizeText text) = true ∧
     cacheGet (generateAudio B text voice s).2.cache
       (cacheKeyOf voice (normalizeText (stripPunct (normalizeText text)))) = some buf ∧
     cacheGet (generateAudio B text voice s).2.cache
       (cacheKeyOf voice (normalizeText text)) =
       cacheGet s.cache (cacheKeyOf voice (normalizeText text))) := by
  cases hc : cacheGet s.cache (cacheKeyOf voice (normalizeText text)) with
  | some b =>
      have hg : generateAudio B text voice s = (.ok b, s) := by
        rw [generateAudio, show (2 : Nat) = 1 + 1 from rfl, generateAudioF]
        rw [hc]
      have h1 : (generateAudio B text voice s).1 = .ok b := by rw [hg]
      have h2 : (generateAudio B text voice s).2 = s := by rw [hg]
      rw [h1] at h
      injection h with h
      left
      rw [h2, hc, h]
  | none =>
      cases hr : runAttempts B (normalizeText text)
          (cacheKeyOf voice (normalizeText text)) 0 3 noAttemptErr s with
      | mk r1 s1 =>
          cases r1 with
          | ok b =>
              have hg : generateAudio B text voice s = (.ok b, s1) := by
                rw [generateAudio, show (2 : Nat) = 1 + 1 from rfl, generateAudioF]
                rw [hc, hr]
              have h1 : (generateAudio B text voice s).1 = .ok b := by rw [hg]
              have h2 : (generateAudio B text voice s).2 = s1 := by rw [hg]
              rw [h1] at h
              injection h with h
              left
              rw [h2, ← h]
              exact runAttempts_ok_cache B _ _ 3 0 _ s b s1 hr
          | error lastErr =>
              have hs1 : s1.cache = s.cache :=
                runAttempts_error_cache B _ _ 3 0 _ s _ s1 hr
              by_cases hp : punctTrigger (normalizeText text) = true
              · cases hc2 : cacheGet s1.cache
                    (cacheKeyOf voice (normalizeText (stripPunct (normalizeText text)))) with
                | some b2 =>
                    have hg : generateAudio B text voice s = (.ok b2, s1) := by
                      rw [generateAudio, show (2 : Nat) = 1 + 1 from rfl, generateAudioF]
                      rw [hc, hr]
                      dsimp only
                      rw [if_pos hp, generateAudioF_one_hit B _ voice s1 b2 hc2]
                    have h1 : (generateAudio B text voice s).1 = .ok b2 := by rw [hg]
                    have h2 : (generateAudio B text voice s).2 = s1 := by rw [hg]
                    rw [h1] at h
                    injection h with h
                    right
                    rw [h2, ← h]
                    exact ⟨hp, hc2, by rw [hs1]; exact hc⟩
                | none =>
                    cases hr2 : runAttempts B (normalizeText (stripPunct (normalizeText text)))
                        (cacheKeyOf voice (normalizeText (stripPunct (normalizeText text))))
                        0 3 noAttemptErr s1 with
                    | mk r2 s2 =>
                        cases r2 with
                        | ok b2 =>
                            have hin : generateAudioF B 1 (stripPunct (normalizeText text))
                                voice s1 = (.ok b2, s2) := by
                              rw [show (1 : Nat) = 0 + 1 from rfl, generateAudioF]
                              rw [hc2, hr2]
                            have hg : generateAudio B text voice s = (.ok b2, s2) := by
                              rw [generateAudio, show (2 : Nat) = 1 + 1 from rfl, generateAudioF]
                              rw [hc, hr]
                              dsimp only
                              rw [if_pos hp, hin]
                            have h1 : (generateAudio B text voice s).1 = .ok b2 := by rw [hg]
                            have h2 : (generateAudio B text voice s).2 = s2 := by rw [hg]
                            rw [h1] at h
                            injection h with h
                            right
                            rw [h2, ← h]
                            refine ⟨hp, runAttempts_ok_cache B _ _ 3 0 _ s1 b2 s2 hr2, ?_⟩
                            rw [runAttempts_ok_state B _ _ 3 0 _ s1 b2 s2 hr2]
                            rw [cacheGet_cacheSet_ne s1.cache _ _ b2
                              fun he => key_ne_strip voice text hp he.symm]
                            rw [hs1]
                            exact hc
                        | error e2 =>
                            have hin : generateAudioF B 1 (stripPunct (normalizeText text))
                                voice s1 = (.error e2, s2) := by
                              rw [show (1 : Nat) = 0 + 1 from rfl, generateAudioF]
                              rw [hc2, hr2]
                              dsimp only
                              rw [punctTrigger_norm_strip]
                              simp
                            have h1 : (generateAudio B text voice s).1 = .error lastErr := by
                              rw [generateAudio, show (2 : Nat) = 1 + 1 from rfl, generateAudioF]
                              rw [hc, hr]
                              dsimp only
                              rw [if_pos hp, hin]
                            rw [h1] at h
                            exact absurd h (by simp)
              · have h1 : (generateAudio B text voice s).1 = .error lastErr := by
                  rw [generateAudio, show (2 : Nat) = 1 + 1 from rfl, generateAudioF]
                  rw [hc, hr]
                  dsimp only
                  rw [if_neg hp]
                rw [h1] at h
                exact absurd h (by simp)

/-- Counterexample to claim C1: for text `Hi.` against a backend that
rejects `Hi.` but accepts the stripped text `Hi`, synthesis succeeds through
the punctuation-stripped fallback, yet the asset is cached only under the
stripped key `V:Hi` — the original normalized key `V:Hi.` is absent, so a
later call with the original text is not a cache hit. -/
theorem claim_c1_counterexample :
    (generateAudio hiBackend "Hi.".data "V".data ⟨[], []⟩).1 = Except.ok emptyBuffer ∧
    cacheGet (generateAudio hiBackend "Hi.".data "V".data ⟨[], []⟩).2.cache
      (cacheKeyOf "V".data (normalizeText "Hi.".data)) = none ∧
    cacheGet (generateAudio hiBackend "Hi.".data "V".data ⟨[], []⟩).2.cache
      (cacheKeyOf "V".data (normalizeText (stripPunct (normalizeText "Hi.".data)))) =
      some emptyBuffer :=
  ⟨rfl, rfl, rfl⟩

/-- Witness for claim C1 (amended) at a concrete succeeding backend. -/
theorem claim_c1_amended_witness :
    (generateAudio okBackend "Hello".data "V".data ⟨[], []⟩).1 = Except.ok emptyBuffer ∧
    (cacheGet (generateAudio okBackend "Hello".data "V".data ⟨[], []⟩).2.cache
       (cacheKeyOf "V".data (normalizeText "Hello".data)) = some emptyBuffer ∨
     (punctTrigger (normalizeText "Hello".data) = true ∧
      cacheGet (generateAudio okBackend "Hello".data "V".data ⟨[], []⟩).2.cache
        (cacheKeyOf "V".data (normalizeText (stripPunct (normalizeText "Hello".data)))) =
        some emptyBuffer ∧
      cacheGet (generateAudio okBackend "Hello".data "V".data ⟨[], []⟩).2.cache
        (cacheKeyOf "V".data (normalizeText "Hello".data)) =
        cacheGet (⟨[], []⟩ : TTSState).cache (cacheKeyOf "V".data (normalizeText "Hello".data)))) :=
  ⟨rfl, claim_c1_amended okBackend "Hello".data "V".data ⟨[], []⟩ emptyBuffer rfl⟩

/-- Counterexample to claim C2: the text `a,b` contains a comma, yet after
all three attempts fail no punctuation-stripped retry is made (the fallback
guard tests only `.?!`, not `,`): the trace holds exactly 3 network calls
and the error is raised. -/
theorem claim_c2_counterexample :
    (',' ∈ normalizeText "a,b".data) ∧
    countCalls (generateAudio failBackend "a,b".data "V".data ⟨[], []⟩).2.events = 3 ∧
    (generateAudio failBackend "a,b".data "V".data ⟨[], []⟩).1 = Except.error boomErr :=
  ⟨by decide, rfl, rfl⟩

/-- Claim C2 (amended): when all three attempts fail, exactly one recursive
punctuation-stripped attempt is made if and only if the normalized text
contains `.`, `?` or `!` (a comma alone does not trigger it, though commas
are stripped too); the recursive round never re-triggers stripping (any
recursion budget beyond 2 behaves identically), and with no trigger
punctuation the last error is raised with no extra attempt. -/
theorem claim_c2_amended (B : Backend) (E : Str → Nat → SynthErr)
    (c : List (Str × AudioBuffer)) (text voice : Str)
    (hB : ∀ t n, B t n = .error (E t n))
    (hmiss : cacheGet c (cacheKeyOf voice (normalizeText text)) = none)
    (hmiss2 : cacheGet c
      (cacheKeyOf voice (normalizeText (stripPunct (normalizeText text)))) = none) :
    (punctTrigger (normalizeText text) = true →
      (generateAudio B text voice ⟨c, []⟩).2.events =
        retryEvents (normalizeText text) ++
          retryEvents (normalizeText (stripPunct (normalizeText text))) ∧
      countCalls (generateAudio B text voice ⟨c, []⟩).2.events = 6 ∧
      (generateAudio B text voice ⟨c, []⟩).1 = .error (E (normalizeText text) 2)) ∧
    (punctTrigger (normalizeText text) = false →
      (generateAudio B text voice ⟨c, []⟩).2.events = retryEvents (normalizeText text) ∧
      countCalls (generateAudio B text voice ⟨c, []⟩).2.events = 3 ∧
      (generateAudio B text voice ⟨c, []⟩).1 = .error (E (normalizeText text) 2)) ∧
    (∀ d : Nat, generateAudioF B (d + 2) text voice ⟨c, []⟩ =
      generateAudio B text voice ⟨c, []⟩) := by
  refine ⟨?_, ?_, ?_⟩
  · intro hp
    rw [generateAudio_allfail_punct B E c text voice hB hmiss hmiss2 hp]
    refine ⟨rfl, ?_, rfl⟩
    show countCalls (retryEvents (normalizeText text) ++
      retryEvents (normalizeText (stripPunct (normalizeText text)))) = 6
    rw [countCalls_append, countCalls_retryEvents, countCalls_retryEvents]
  · intro hp
    rw [generateAudio_allfail_nopunct B E c text voice hB hmiss hp]
    exact ⟨rfl, rfl, rfl⟩
  · intro d
    exact generateAudioF_fuel B text voice d ⟨c, []⟩

/-- Witness for claim C2 (amended) at the all-failing backend and `Hi.`. -/
theorem claim_c2_amended_witness :
    punctTrigger (normalizeText "Hi.".data) = true ∧
    (generateAudio failBackend "Hi.".data "V".data ⟨[], []⟩).1 = Except.error boomErr ∧
    countCalls (generateAudio failBackend "Hi.".data "V".data ⟨[], []⟩).2.events = 6 := by
  have h := claim_c2_amended failBackend (fun _ _ => boomErr) [] "Hi.".data "V".data
    (fun _ _ => rfl) rfl rfl
  exact ⟨by decide, (h.1 (by decide)).2.2, (h.1 (by decide)).2.1⟩

/-- Claim C5: against a backend that succeeds on the first attempt, calling
synthesize twice with the same arguments from an empty cache issues exactly
one network call in total; the second call returns the identical asset the
first call stored, and leaves the state untouched. -/
theorem claim_c5_cache_idempotence (B : Backend) (text voice : Str) (payload : Str)
    (hB : B (normalizeText text) 0 = .ok payload) :
    countCalls (generateAudio B text voice
        (generateAudio B text voice ⟨[], []⟩).2).2.events = 1 ∧
    (generateAudio B text voice ⟨[], []⟩).1 = .ok (decodePayload payload) ∧
    (generateAudio B text voice (generateAudio B text voice ⟨[], []⟩).2).1 =
      (generateAudio B text voice ⟨[], []⟩).1 ∧
    (generateAudio B text voice (generateAudio B text voice ⟨[], []⟩).2).2 =
      (generateAudio B text voice ⟨[], []⟩).2 ∧
    cacheGet (generateAudio B text voice ⟨[], []⟩).2.cache
      (cacheKeyOf voice (normalizeText text)) = some (decodePayload payload) := by
  have hrun : runAttempts B (normalizeText text) (cacheKeyOf voice (normalizeText text))
      0 3 noAttemptErr ⟨[], []⟩ =
      (.ok (decodePayload payload),
       ⟨cacheSet [] (cacheKeyOf voice (normalizeText text)) (decodePayload payload),
        [.call (normalizeText text)]⟩) := by
    rw [show (3 : Nat) = 2 + 1 from rfl, runAttempts]
    dsimp only
    simp only [countCalls, List.filter, List.length_nil]
    rw [hB]
    rfl
  have hg1 : generateAudio B text voice ⟨[], []⟩ =
      (.ok (decodePayload payload),
       ⟨cacheSet [] (cacheKeyOf voice (normalizeText text)) (decodePayload payload),
        [.call (normalizeText text)]⟩) := by
    rw [generateAudio, show (2 : Nat) = 1 + 1 from rfl, generateAudioF]
    dsimp only
    simp only [cacheGet]
    rw [hrun]
  have hg2 : generateAudio B text voice
      (⟨cacheSet [] (cacheKeyOf voice (normalizeText text)) (decodePayload payload),
        [.call (normalizeText text)]⟩ : TTSState) =
      (.ok (decodePayload payload),
       ⟨cacheSet [] (cacheKeyOf voice (normalizeText text)) (decodePayload payload),
        [.call (normalizeText text)]⟩) := by
    rw [generateAudio, show (2 : Nat) = 1 + 1 from rfl, generateAudioF]
    dsimp only
    rw [cacheGet_cacheSet_self]
  rw [hg1]
  dsimp only
  rw [hg2]
  refine ⟨rfl, rfl, rfl, rfl, ?_⟩
  exact cacheGet_cacheSet_self _ _ _

/-- Witness for claim C5 at a concrete succeeding backend. -/
theorem claim_c5_witness :
    okBackend (normalizeText "Hello".data) 0 = Except.ok [] ∧
    countCalls (generateAudio okBackend "Hello".data "V".data
        (generateAudio okBackend "Hello".data "V".data ⟨[], []⟩).2).2.events = 1 := by
  have h := claim_c5_cache_idempotence okBackend "Hello".data "V".data [] rfl
  exact ⟨rfl, h.1⟩

/-- Witness for claim C3 at the all-failing backend and an uncached text. -/
theorem claim_c3_witness :
    (generateAudio failBackend "Hi".data "V".data ⟨[], []⟩).2.events.take 5 =
      retryEvents (normalizeText "Hi".data) ∧
    (generateAudio failBackend "Hi".data "V".data ⟨[], []⟩).1 = Except.error boomErr := by
  have h := claim_c3_retry_bound failBackend (fun _ _ => boomErr) [] "Hi".data "V".data
    (fun _ _ => rfl) rfl
  exact ⟨h.1, (h.2.2.1 (by decide)).2⟩

/-- Claim C8: each inbound chunk is scheduled at
`max(nextStartTime, clockNow)` and the cursor advances by the chunk's
duration, so the cursor is monotonically non-decreasing and consecutive
chunks play back-to-back: the second starts no earlier than the first's
end, and exactly at it when the clock has not yet passed it; two chunks
arriving at clock `t0` start at `t0` and `t0 + d1`. -/
theorem claim_c8_gapless (st : LiveState) (now1 now2 d1 d2 : ℚ) (s1 s2 : Nat)
    (hd1 : 0 ≤ d1) (hd2 : 0 ≤ d2) :
    (onAudioChunk st now1 d1 s1).2 = max st.nextStartTime now1 ∧
    (onAudioChunk st now1 d1 s1).1.nextStartTime = (onAudioChunk st now1 d1 s1).2 + d1 ∧
    st.nextStartTime ≤ (onAudioChunk st now1 d1 s1).1.nextStartTime ∧
    (onAudioChunk st now1 d1 s1).1.nextStartTime ≤
      (onAudioChunk (onAudioChunk st now1 d1 s1).1 now2 d2 s2).1.nextStartTime ∧
    (onAudioChunk st now1 d1 s1).2 + d1 ≤
      (onAudioChunk (onAudioChunk st now1 d1 s1).1 now2 d2 s2).2 ∧
    (now2 ≤ (onAudioChunk st now1 d1 s1).2 + d1 →
      (onAudioChunk (onAudioChunk st now1 d1 s1).1 now2 d2 s2).2 =
        (onAudioChunk st now1 d1 s1).2 + d1) ∧
    (st.nextStartTime ≤ now1 → now2 = now1 →
      (onAudioChunk st now1 d1 s1).2 = now1 ∧
      (onAudioChunk (onAudioChunk st now1 d1 s1).1 now2 d2 s2).2 = now1 + d1) := by
  unfold onAudioChunk
  dsimp only
  refine ⟨rfl, rfl, ?_, ?_, ?_, ?_, ?_⟩
  · exact le_trans (le_max_left _ _) (le_add_of_nonneg_right hd1)
  · exact le_trans (le_max_left _ _) (le_add_of_nonneg_right hd2)
  · exact le_max_left _ _
  · intro h
    exact max_eq_left h
  · intro h1 h2
    refine ⟨max_eq_right h1, ?_⟩
    rw [h2, max_eq_right h1]
    exact max_eq_left (le_add_of_nonneg_right hd1)

/-- Witness for claim C8: two chunks of 0.5 s and 0.3 s arriving at clock
time 1 start at 1 and 1.5. -/
theorem claim_c8_witness :
    (0 : ℚ) ≤ 1 / 2 ∧ (0 : ℚ) ≤ 3 / 10 ∧
    (onAudioChunk liveInit 1 (1 / 2) 0).2 = 1 ∧
    (onAudioChunk (onAudioChunk liveInit 1 (1 / 2) 0).1 1 (3 / 10) 1).2 = 1 + 1 / 2 := by
  have h := claim_c8_gapless liveInit 1 1 (1 / 2) (3 / 10) 0 1 (by norm_num) (by norm_num)
  have h7 := h.2.2.2.2.2.2 (by norm_num [liveInit]) rfl
  exact ⟨by norm_num, by norm_num, h7.1, h7.2⟩

/-- Claim C9: an interruption stops every handle in `activeSources` (they
all enter the stopped log), empties `activeSources`, and resets the cursor
to 0, so the next inbound chunk is scheduled at the then-current clock
time. -/
theorem claim_c9_interruption (st : LiveState) (clockNow dur : ℚ) (sid : Nat) :
    (onInterrupted st).stoppedLog = st.stoppedLog ++ st.activeSources ∧
    (∀ x ∈ st.activeSources, x ∈ (onInterrupted st).stoppedLog) ∧
    (onInterrupted st).activeSources = [] ∧
    (onInterrupted st).nextStartTime = 0 ∧
    (0 ≤ clockNow → (onAudioChunk (onInterrupted st) clockNow dur sid).2 = clockNow) := by
  refine ⟨rfl, ?_, rfl, rfl, ?_⟩
  · intro x hx
    unfold onInterrupted
    exact List.mem_append_right _ hx
  · intro h
    unfold onAudioChunk onInterrupted
    dsimp only
    exact max_eq_right h

/-- Witness for claim C9 at a mid-playback session state. -/
theorem claim_c9_witness :
    (0 : ℚ) ≤ 3 ∧
    (2 ∈ liveBusy.activeSources ∧ 2 ∈ (onInterrupted liveBusy).stoppedLog) ∧
    (onAudioChunk (onInterrupted liveBusy) 3 (1 / 2) 7).2 = 3 := by
  have h := claim_c9_interruption liveBusy 3 (1 / 2) 7
  exact ⟨by norm_num, ⟨by decide, h.2.1 2 (by decide)⟩, h.2.2.2.2 (by norm_num)⟩

theorem processItems_spec (B : Backend) (voiceName : Str) (total : Nat) :
    ∀ (q : List Str) (completed : Nat) (s : TTSState),
      (processItems B voiceName total q completed s).1 =
        (List.range q.length).map (fun i => (completed + 1 + i, total)) ∧
      (processItems B voiceName total q completed s).2.1 = completed + q.length ∧
      (processItems B voiceName total q completed s).2.2.2 = q := by
  intro q
  induction q with
  | nil => intro c s; exact ⟨rfl, rfl, rfl⟩
  | cons t rest ih =>
      intro c s
      rw [processItems]
      dsimp only
      obtain ⟨ih1, ih2, ih3⟩ := ih (c + 1) (generateAudio B t voiceName s).2
      refine ⟨?_, ?_, ?_⟩
      · rw [ih1, List.length_cons, List.range_succ_eq_map, List.map_cons, List.map_map]
        have harith : ((fun i => (c + 1 + i, total)) ∘ Nat.succ) =
            fun i => (c + 1 + 1 + i, total) := by
          funext i
          simp only [Function.comp]
          exact Prod.ext (by omega) rfl
        rw [harith]
      · rw [ih2, List.length_cons]
        omega
      · rw [ih3]

theorem chunksOf_nil (k : Nat) : chunksOf k ([] : List Str) = [] := by
  rw [chunksOf]
  simp

theorem processBatches_spec (B : Backend) (voiceName : Str) (total : Nat) :
    ∀ (N : Nat) (q : List Str), q.length ≤ N → ∀ (completed : Nat) (s : TTSState),
      (processBatches B voiceName total (chunksOf 15 q) completed s).1 =
        (List.range q.length).map (fun i => (completed + 1 + i, total)) ∧
      (processBatches B voiceName total (chunksOf 15 q) completed s).2.1 =
        completed + q.length ∧
      (processBatches B voiceName total (chunksOf 15 q) completed s).2.2.2 = q := by
  intro N
  induction N with
  | zero =>
      intro q hq c s
      have hq0 : q = [] := List.eq_nil_of_length_eq_zero (Nat.le_zero.mp hq)
      subst hq0
      rw [chunksOf_nil]
      exact ⟨rfl, rfl, rfl⟩
  | succ N ih =>
      intro q hq c s
      by_cases hq0 : q = []
      · subst hq0
        rw [chunksOf_nil]
        exact ⟨rfl, rfl, rfl⟩
      · rw [chunksOf, if_neg (by simp [hq0])]
        rw [processBatches]
        dsimp only
        obtain ⟨p1, p2, p3⟩ := processItems_spec B voiceName total (q.take 15) c s
        have hlen : q.length = (q.take 15).length + (q.drop 15).length := by
          rw [List.length_take, List.length_drop]
          omega
        have hdroplen : (q.drop 15).length ≤ N := by
          rw [List.length_drop]
          have h1 : 1 ≤ q.length := by
            rcases Nat.eq_zero_or_pos q.length with h | h
            · exact absurd (List.eq_nil_of_length_eq_zero h) hq0
            · exact h
          omega
        obtain ⟨r1, r2, r3⟩ := ih (q.drop 15) hdroplen
          (processItems B voiceName total (q.take 15) c s).2.1
          (pushEv (processItems B voiceName total (q.take 15) c s).2.2.1 (.wait 20))
        refine ⟨?_, ?_, ?_⟩
        · rw [p1, r1, p2, hlen, List.range_add, List.map_append, List.map_map]
          have harith : ((fun i => (c + 1 + i, total)) ∘ fun x => (q.take 15).length + x) =
              fun i => (c + (q.take 15).length + 1 + i, total) := by
            funext i
            simp only [Function.comp]
            exact Prod.ext (by omega) rfl
          rw [harith]
        · rw [r2, p2, hlen]
          omega
        · rw [r3, p3, List.take_append_drop]

theorem length_filter_partition (l : List Str) (p : Str → Bool) :
    (l.filter p).length + (l.filter fun x => !(p x)).length = l.length := by
  induction l with
  | nil => rfl
  | cons a l ih =>
      by_cases h : p a <;> simp [List.filter, h] <;> omega

theorem chain_ladder (N : Nat) :
    ∀ (Q a : Nat), List.Chain' (fun p q : Nat × Nat => p.1 ≤ q.1)
      ((a, N) :: (List.range Q).map (fun i => (a + 1 + i, N))) := by
  intro Q
  induction Q with
  | zero => intro a; simp
  | succ Q ih =>
      intro a
      rw [List.range_succ_eq_map, List.map_cons, List.map_map]
      have harith : ((fun i => (a + 1 + i, N)) ∘ Nat.succ) =
          fun i => (a + 1 + 1 + i, N) := by
        funext i
        simp only [Function.comp]
        exact Prod.ext (by omega) rfl
      rw [harith]
      refine List.Chain'.cons (by omega) ?_
      exact ih (a + 1)

theorem ladder_last (N : Nat) :
    ∀ (Q a : Nat), ((a, N) :: (List.range Q).map (fun i => (a + 1 + i, N))).getLast? =
      some (a + Q, N) := by
  intro Q
  induction Q with
  | zero => intro a; rfl
  | succ Q ih =>
      intro a
      rw [List.range_succ_eq_map, List.map_cons, List.map_map]
      have harith : ((fun i => (a + 1 + i, N)) ∘ Nat.succ) =
          fun i => (a + 1 + 1 + i, N) := by
        funext i
        simp only [Function.comp]
        exact Prod.ext (by omega) rfl
      rw [harith, List.getLast?_cons_cons]
      have := ih (a + 1)
      rw [show a + (Q + 1) = a + 1 + Q from by omega]
      exact this

/-- Claim C6: preload reports `(C, N)` first (before any synthesis work),
passes exactly the un-cached unique texts to the synthesis client in order,
emits one further report per pending item whatever the backend answers,
keeps the completed count monotonically non-decreasing, and ends at
`(N, N)`. -/
theorem claim_c6_preload (B : Backend) (vocabulary : Vocabulary) (voiceName : Str)
    (s : TTSState) :
    (preloadAudioAssets B vocabulary voiceName s).1 =
      (preloadCached vocabulary voiceName s.cache, preloadTotal vocabulary) ::
        (List.range (preloadTotal vocabulary -
            preloadCached vocabulary voiceName s.cache)).map
          (fun i => (preloadCached vocabulary voiceName s.cache + 1 + i,
            preloadTotal vocabulary)) ∧
    (preloadAudioAssets B vocabulary voiceName s).2.2 =
      preloadQueue vocabulary voiceName s.cache ∧
    List.Chain' (fun p q : Nat × Nat => p.1 ≤ q.1)
      (preloadAudioAssets B vocabulary voiceName s).1 ∧
    (preloadAudioAssets B vocabulary voiceName s).1.getLast? =
      some (preloadTotal vocabulary, preloadTotal vocabulary) ∧
    (preloadAudioAssets B vocabulary voiceName s).1.head? =
      some (preloadCached vocabulary voiceName s.cache, preloadTotal vocabulary) := by
  have hpart : preloadCached vocabulary voiceName s.cache +
      (preloadQueue vocabulary voiceName s.cache).length = preloadTotal vocabulary :=
    length_filter_partition (collectTexts vocabulary) _
  have hsub : preloadTotal vocabulary - preloadCached vocabulary voiceName s.cache =
      (preloadQueue vocabulary voiceName s.cache).length := by omega
  have hmain : (preloadAudioAssets B vocabulary voiceName s).1 =
      (preloadCached vocabulary voiceName s.cache, preloadTotal vocabulary) ::
        (List.range (preloadQueue vocabulary voiceName s.cache).length).map
          (fun i => (preloadCached vocabulary voiceName s.cache + 1 + i,
            preloadTotal vocabulary)) ∧
      (preloadAudioAssets B vocabulary voiceName s).2.2 =
        preloadQueue vocabulary voiceName s.cache := by
    by_cases hq : preloadQueue vocabulary voiceName s.cache = []
    · rw [preloadQueue] at hq
      rw [preloadAudioAssets]
      dsimp only
      rw [if_pos hq]
      constructor
      · rw [preloadQueue, hq]
        rfl
      · rw [preloadQueue, hq]
    · rw [preloadQueue] at hq
      rw [preloadAudioAssets]
      dsimp only
      rw [if_neg hq]
      obtain ⟨b1, b2, b3⟩ := processBatches_spec B voiceName
        ((collectTexts vocabulary).length)
        ((collectTexts vocabulary).filter
          fun t => !isCachedForVoice s.cache voiceName t).length
        ((collectTexts vocabulary).filter
          fun t => !isCachedForVoice s.cache voiceName t)
        (le_refl _)
        ((collectTexts vocabulary).filter
          fun t => isCachedForVoice s.cache voiceName t).length
        s
      constructor
      · rw [b1]
        rfl
      · rw [b3]
        rfl
  refine ⟨?_, hmain.2, ?_, ?_, ?_⟩
  · rw [hmain.1, hsub]
  · rw [hmain.1]
    exact chain_ladder _ _ _
  · rw [hmain.1, ladder_last]
    rw [hpart]
  · rw [hmain.1]
    rfl

theorem mem_addUnique (l : List Str) (u x : Str) :
    x ∈ addUnique l u ↔ x ∈ l ∨ x = u := by
  unfold addUnique
  split
  · rename_i hu
    constructor
    · exact Or.inl
    · rintro (h | rfl)
      · exact h
      · exact hu
  · simp

theorem addUnique_nodup (l : List Str) (u : Str) (h : l.Nodup) :
    (addUnique l u).Nodup := by
  unfold addUnique
  split
  · exact h
  · rename_i hu
    simp [List.nodup_append, h, hu]

theorem mem_collect_inner (tiles : List TileData) :
    ∀ (acc : List Str) (x : Str),
      (x ∈ tiles.foldl
        (fun a t => if ("folder_".data).isPrefixOf t.id then a
          else addUnique a (speakOf t)) acc) ↔
      x ∈ acc ∨ ∃ t, t ∈ tiles ∧
        ("folder_".data).isPrefixOf t.id = false ∧ speakOf t = x := by
  induction tiles with
  | nil => intro acc x; simp
  | cons t ts ih =>
      intro acc x
      rw [List.foldl_cons]
      by_cases hf : ("folder_".data).isPrefixOf t.id = true
      · rw [if_pos hf, ih]
        constructor
        · rintro (h | ⟨t', ht', h1, h2⟩)
          · exact Or.inl h
          · exact Or.inr ⟨t', List.mem_cons_of_mem _ ht', h1, h2⟩
        · rintro (h | ⟨t', ht', h1, h2⟩)
          · exact Or.inl h
          · rcases List.mem_cons.mp ht' with rfl | hmem
            · rw [hf] at h1
              exact absurd h1 (by simp)
            · exact Or.inr ⟨t', hmem, h1, h2⟩
      · have hf' : ("folder_".data).isPrefixOf t.id = false := by
          cases h : ("folder_".data).isPrefixOf t.id
          · rfl
          · exact absurd h hf
        rw [if_neg hf, ih]
        constructor
        · rintro (h | ⟨t', ht', h1, h2⟩)
          · rcases (mem_addUnique acc (speakOf t) x).mp h with h | rfl
            · exact Or.inl h
            · exact Or.inr ⟨t, List.mem_cons_self t ts, hf', rfl⟩
          · exact Or.inr ⟨t', List.mem_cons_of_mem _ ht', h1, h2⟩
        · rintro (h | ⟨t', ht', h1, h2⟩)
          · exact Or.inl ((mem_addUnique acc (speakOf t) x).mpr (Or.inl h))
          · rcases List.mem_cons.mp ht' with rfl | hmem
            · exact Or.inl ((mem_addUnique acc (speakOf t') x).mpr (Or.inr h2.symm))
            · exact Or.inr ⟨t', hmem, h1, h2⟩

theorem nodup_collect_inner (tiles : List TileData) :
    ∀ (acc : List Str), acc.Nodup →
      (tiles.foldl
        (fun a t => if ("folder_".data).isPrefixOf t.id then a
          else addUnique a (speakOf t)) acc).Nodup := by
  induction tiles with
  | nil => intro acc h; exact h
  | cons t ts ih =>
      intro acc h
      rw [List.foldl_cons]
      apply ih
      split
      · exact h
      · exact addUnique_nodup acc (speakOf t) h

theorem mem_collect_outer (vocabulary : Vocabulary) :
    ∀ (acc : List Str) (x : Str),
      (x ∈ vocabulary.foldl
        (fun acc p => p.2.foldl
          (fun a t => if ("folder_".data).isPrefixOf t.id then a
            else addUnique a (speakOf t)) acc) acc) ↔
      x ∈ acc ∨ ∃ p, p ∈ vocabulary ∧ ∃ t, t ∈ p.2 ∧
        ("folder_".data).isPrefixOf t.id = false ∧ speakOf t = x := by
  induction vocabulary with
  | nil => intro acc x; simp
  | cons p ps ih =>
      intro acc x
      rw [List.foldl_cons, ih, mem_collect_inner]
      constructor
      · rintro ((h | ⟨t, ht, h1, h2⟩) | ⟨p', hp', t, ht, h1, h2⟩)
        · exact Or.inl h
        · exact Or.inr ⟨p, List.mem_cons_self p ps, t, ht, h1, h2⟩
        · exact Or.inr ⟨p', List.mem_cons_of_mem _ hp', t, ht, h1, h2⟩
      · rintro (h | ⟨p', hp', t, ht, h1, h2⟩)
        · exact Or.inl (Or.inl h)
        · rcases List.mem_cons.mp hp' with rfl | hmem
          · exact Or.inl (Or.inr ⟨t, ht, h1, h2⟩)
          · exact Or.inr ⟨p', hmem, t, ht, h1, h2⟩

theorem nodup_collect_outer (vocabulary : Vocabulary) :
    ∀ (acc : List Str), acc.Nodup →
      (vocabulary.foldl
        (fun acc p => p.2.foldl
          (fun a t => if ("folder_".data).isPrefixOf t.id then a
            else addUnique a (speakOf t)) acc) acc).Nodup := by
  induction vocabulary with
  | nil => intro acc h; exact h
  | cons p ps ih =>
      intro acc h
      rw [List.foldl_cons]
      exact ih _ (nodup_collect_inner p.2 acc h)

/-- Counterexample to claim C7: the vocabulary flattening excludes only
tiles whose id starts with `folder_`; a navigation tile (id `back_general`,
`isNavigation` set) is preloaded, and a present-but-empty `textToSpeak`
falls back to the label, so the flattening differs from the claimed one. -/
theorem claim_c7_counterexample :
    navTile.isNavigation = some true ∧
    ("back_".data).isPrefixOf navTile.id = true ∧
    "Back".data ∈ collectTexts cxVocabulary ∧
    collectTexts cxVocabulary ≠ collectTextsClaim cxVocabulary := by
  refine ⟨rfl, by decide, by decide, by decide⟩

/-- Claim C7 (amended): the flattening collects, without duplicates,
exactly the spoken strings of tiles whose id does not start with
`folder_` — navigation tiles are not excluded — where the spoken string is
`textToSpeak` when present and non-empty, else `label`. -/
theorem claim_c7_amended (vocabulary : Vocabulary) :
    (collectTexts vocabulary).Nodup ∧
    ∀ x : Str, x ∈ collectTexts vocabulary ↔
      ∃ p, p ∈ vocabulary ∧ ∃ t, t ∈ p.2 ∧
        ("folder_".data).isPrefixOf t.id = false ∧
        (match t.textToSpeak with
         | some u => if u = [] then t.label else u
         | none => t.label) = x := by
  constructor
  · rw [collectTexts]
    exact nodup_collect_outer vocabulary [] List.nodup_nil
  · intro x
    rw [collectTexts, mem_collect_outer]
    simp only [List.not_mem_nil, false_or]
    constructor
    · rintro ⟨p, hp, t, ht, h1, h2⟩
      exact ⟨p, hp, t, ht, h1, h2⟩
    · rintro ⟨p, hp, t, ht, h1, h2⟩
      exact ⟨p, hp, t, ht, h1, h2⟩
